import Mathlib

/-!
Verification of the WiseSpeak-AI RAG core against its specification.

Python strings are embedded as `List Char` (one entry per code point, so
`len` is `List.length`).  Fallible paths are `Except`/`Option`; the
`while` loop of the character chunker is given explicit fuel, with `none`
meaning the fuel was exhausted.  External collaborators (OpenAI embedding
and generation clients, the Chroma vector store) are function parameters,
mirroring the constructor-injected services of the source.  Float
constants (`0.1`, `0.2`) are embedded as exact rationals.
-/

/-- Python `str.strip()`: remove leading and trailing whitespace. -/
def pyStrip (s : List Char) : List Char :=
  ((s.dropWhile Char.isWhitespace).reverse.dropWhile Char.isWhitespace).reverse

/-- Python index clamping used by slicing `t[a:b]`: a negative index counts
from the end, and both ends are clamped into `[0, n]`. -/
def pyIndex (n : Nat) (i : Int) : Nat :=
  if i < 0 then ((n : Int) + i).toNat else min i.toNat n

/-- Python slice `t[a:b]` on a list of characters. -/
def pySlice (s : List Char) (a b : Int) : List Char :=
  (s.take (pyIndex s.length b)).drop (pyIndex s.length a)

/-- Stable insertion of `a` into `l`: `a` goes before the first element `b`
with `le a b`.  With `le = (key ≤ key)` this reproduces the ordering of
Python's stable `sorted`. -/
def insertSortedBy (le : α → α → Bool) (a : α) : List α → List α
  | [] => [a]
  | b :: bs => if le a b then a :: b :: bs else b :: insertSortedBy le a bs

/-- Stable sort by the boolean relation `le`; embeds Python `sorted(...)`. -/
def insertionSortBy (le : α → α → Bool) : List α → List α
  | [] => []
  | a :: as => insertSortedBy le a (insertionSortBy le as)

theorem perm_insertSortedBy (le : α → α → Bool) (a : α) :
    ∀ l : List α, List.Perm (insertSortedBy le a l) (a :: l) := by
  intro l
  induction l with
  | nil => simp [insertSortedBy]
  | cons b bs ih =>
    simp only [insertSortedBy]
    by_cases h : le a b
    · simp [h]
    · simp only [h, if_neg, Bool.false_eq_true, not_false_eq_true]
      exact (List.Perm.cons b ih).trans (List.Perm.swap a b bs)

theorem perm_insertionSortBy (le : α → α → Bool) :
    ∀ l : List α, List.Perm (insertionSortBy le l) l := by
  intro l
  induction l with
  | nil => simp [insertionSortBy]
  | cons a as ih =>
    exact (perm_insertSortedBy le a (insertionSortBy le as)).trans (List.Perm.cons a ih)

theorem pairwise_insertSortedBy (le : α → α → Bool)
    (htrans : ∀ x y z, le x y = true → le y z = true → le x z = true)
    (htotal : ∀ x y, le x y = true ∨ le y x = true) (a : α) :
    ∀ l : List α, List.Pairwise (fun x y => le x y = true) l →
      List.Pairwise (fun x y => le x y = true) (insertSortedBy le a l) := by
  intro l
  induction l with
  | nil => intro _; simp [insertSortedBy]
  | cons b bs ih =>
    intro hp
    rcases List.pairwise_cons.mp hp with ⟨hb, hbs⟩
    simp only [insertSortedBy]
    by_cases h : le a b
    · simp only [h, if_pos]
      refine List.pairwise_cons.mpr ⟨?_, hp⟩
      intro x hx
      rcases List.mem_cons.mp hx with rfl | hx
      · exact h
      · exact htrans a b x h (hb x hx)
    · simp only [h, Bool.false_eq_true, if_neg, not_false_eq_true]
      refine List.pairwise_cons.mpr ⟨?_, ih hbs⟩
      intro x hx
      have hperm := perm_insertSortedBy le a bs
      rcases List.mem_cons.mp ((hperm.mem_iff).mp hx) with heq | hxbs
      · rw [heq]
        rcases htotal a b with hab | hba
        · exact absurd hab h
        · exact hba
      · exact hb x hxbs

theorem pairwise_insertionSortBy (le : α → α → Bool)
    (htrans : ∀ x y z, le x y = true → le y z = true → le x z = true)
    (htotal : ∀ x y, le x y = true ∨ le y x = true) :
    ∀ l : List α, List.Pairwise (fun x y => le x y = true) (insertionSortBy le l) := by
  intro l
  induction l with
  | nil => simp [insertionSortBy]
  | cons a as ih => exact pairwise_insertSortedBy le htrans htotal a _ ih

/-! ## Vector DB service and retrieval (`services/vector_db.py`, `rag/rag_engine.py`) -/

/-- A formatted search result, as assembled by `VectorDBService.search`
(`document`, `id`, `metadata`, `distance`); `_compress_context` may later
set the three compression bookkeeping fields. -/
structure SearchResult where
  document : List Char
  id : List Char
  metadata : List (List Char × List Char)
  distance : ℚ
  compressed : Bool := false
  original_length : Option Nat := none
  compressed_length : Option Nat := none
deriving DecidableEq

inductive PyError where
  | typeError : PyError
deriving DecidableEq

/-- The keyword parameters of `VectorDBService.search` exactly as written in
the source signature: the filter parameter is misspelled `ㄴwhere` (a stray
Hangul jamo before `where`). -/
def search_params : List String :=
  ["collection_name", "query", "n_results", "ㄴwhere"]

/-- The keyword arguments `RAGEngine.retrieve` uses when calling
`vector_db_service.search(...)`. -/
def retrieve_search_kwargs : List String :=
  ["collection_name", "query", "n_results", "where"]

/-- Python keyword binding: a call succeeds only if every keyword argument
names a parameter of the callee; otherwise it raises `TypeError` before the
callee body runs. -/
def kwargsAccepted (params kwargs : List String) : Bool :=
  kwargs.all (fun k => params.contains k)

/-- `RAGEngine.retrieve` with the repository's own `VectorDBService`:
empty/whitespace-only queries return `[]`; otherwise the engine calls
`search` with the keyword `where`.  If the binding succeeded, `search`'s
body would hit its own undefined name `where` (`NameError`), be caught by
its broad handler and return `[]`; if binding fails, `TypeError` escapes. -/
def retrieve (query : String) (filter_metadata : Option (List (List Char × List Char))) :
    Except PyError (List SearchResult) :=
  if query.data.isEmpty || (pyStrip query.data).isEmpty then Except.ok []
  else if kwargsAccepted search_params retrieve_search_kwargs then Except.ok []
  else Except.error PyError.typeError

/-! ## Document chunker (`processors/document/document_chunker.py`) -/

/-- One run of the `while start < len(text)` loop of
`DocumentChunker._chunk_by_character`, with explicit fuel (`none`: the fuel
ran out, i.e. the loop had not finished after `fuel` iterations).  Each
iteration takes `chunk = text[start:end]` with `end = min(start + size,
len(text))`, then sets `start = end - overlap`, with the source's guard
`if start >= end: start = end`. -/
def chunk_char_go (size overlap : Nat) (t : List Char) : Nat → Int → Option (List (List Char))
  | 0, _ => none
  | fuel + 1, start =>
    if start < (t.length : Int) then
      let e : Int := min (start + (size : Int)) (t.length : Int)
      let chunk := pySlice t start e
      let s1 : Int := e - (overlap : Int)
      let s2 : Int := if e ≤ s1 then e else s1
      (chunk_char_go size overlap t fuel s2).map (fun rest => chunk :: rest)
    else some []

/-- `DocumentChunker._chunk_by_character`: strips the text, then slides the
window. -/
def chunk_by_character (size overlap : Nat) (text : List Char) (fuel : Nat) :
    Option (List (List Char)) :=
  chunk_char_go size overlap (pyStrip text) fuel 0

def isSentenceEnd (c : Char) : Bool := c = '.' || c = '!' || c = '?'

/-- The character class `[A-Z가-힣]` of the sentence-boundary regex. -/
def isSentenceStartChar (c : Char) : Bool :=
  ('A' ≤ c && c ≤ 'Z') || ('가' ≤ c && c ≤ '힣')

/-- `re.split(r'(?<=[.!?])\s+(?=[A-Z가-힣])', text)`: the separator is a
maximal whitespace run immediately preceded by `[.!?]` and immediately
followed by `[A-Z가-힣]`.  `ws` is the pending whitespace run and `cur` the
current segment, both accumulated in reverse. -/
def split_sentences_go : List Char → List Char → List Char → List (List Char)
  | [], ws, cur => [(ws ++ cur).reverse]
  | c :: rest, ws, cur =>
    if c.isWhitespace then split_sentences_go rest (c :: ws) cur
    else if !ws.isEmpty && cur.head?.any isSentenceEnd && isSentenceStartChar c then
      cur.reverse :: split_sentences_go rest [] [c]
    else split_sentences_go rest [] (c :: (ws ++ cur))

def split_sentences (t : List Char) : List (List Char) := split_sentences_go t [] []

/-- First loop of `_chunk_by_sentence` ("작은 문장들 결합"): skip blank
sentences, merge consecutive sentences while `len(cur) + len(s) < size`
(joined by a single space), flushing `cur` when the merge fails. -/
def combine_sentences (size : Nat) : List (List Char) → List Char → List (List Char)
  | [], cur => if cur.isEmpty then [] else [cur]
  | s :: rest, cur =>
    if (pyStrip s).isEmpty then combine_sentences size rest cur
    else if cur.length + s.length < size then
      combine_sentences size rest (if cur.isEmpty then s else cur ++ ' ' :: s)
    else if cur.isEmpty then combine_sentences size rest s
    else cur :: combine_sentences size rest s

/-- Second loop of `_chunk_by_sentence`: a sentence longer than `size` is
split by `_chunk_by_character` (flushing `cur` first); otherwise pack while
`len(cur) + len(s) + 1 <= size`; the flush `chunks.append(current_chunk)`
in the middle branch is unconditional in the source, so it can emit `cur`
even when empty. -/
def build_sentence_chunks (size overlap fuel : Nat) :
    List (List Char) → List Char → Option (List (List Char))
  | [], cur => some (if cur.isEmpty then [] else [cur])
  | s :: rest, cur =>
    if size < s.length then
      (chunk_by_character size overlap s fuel).bind (fun sc =>
        (build_sentence_chunks size overlap fuel rest []).map (fun more =>
          (if cur.isEmpty then [] else [cur]) ++ sc ++ more))
    else if size < cur.length + s.length + 1 then
      (build_sentence_chunks size overlap fuel rest s).map (fun more => cur :: more)
    else build_sentence_chunks size overlap fuel rest (if cur.isEmpty then s else cur ++ ' ' :: s)

/-- `DocumentChunker._chunk_by_sentence`. -/
def chunk_by_sentence (size overlap : Nat) (text : List Char) (fuel : Nat) :
    Option (List (List Char)) :=
  build_sentence_chunks size overlap fuel (combine_sentences size (split_sentences text) []) []

/-- `re.split(r'\n\s*\n', text)`: with greedy backtracking the separator is
the span of a whitespace run from its first newline to its last newline,
provided the run holds at least two newlines.  `ws` is the pending
whitespace run and `cur` the current segment, both in reverse. -/
def split_paragraphs_go : List Char → List Char → List Char → List (List Char)
  | [], ws, cur =>
    if 2 ≤ ws.count '\n' then
      [((ws.reverse.takeWhile (fun x => x ≠ '\n')).reverse ++ cur).reverse,
        (ws.takeWhile (fun x => x ≠ '\n')).reverse]
    else [(ws ++ cur).reverse]
  | c :: rest, ws, cur =>
    if c.isWhitespace then split_paragraphs_go rest (c :: ws) cur
    else if 2 ≤ ws.count '\n' then
      ((ws.reverse.takeWhile (fun x => x ≠ '\n')).reverse ++ cur).reverse ::
        split_paragraphs_go rest [] (c :: ws.takeWhile (fun x => x ≠ '\n'))
    else split_paragraphs_go rest [] (c :: (ws ++ cur))

def split_paragraphs (t : List Char) : List (List Char) := split_paragraphs_go t [] []

/-- The loop of `_chunk_by_paragraph`: strip each paragraph, skip blanks,
send a paragraph longer than `size` to `_chunk_by_sentence` (flushing `cur`
first), otherwise pack while `len(cur) + len(p) + 2 <= size` (joined by a
blank line). -/
def build_paragraph_chunks (size overlap fuel : Nat) :
    List (List Char) → List Char → Option (List (List Char))
  | [], cur => some (if cur.isEmpty then [] else [cur])
  | p0 :: rest, cur =>
    let p := pyStrip p0
    if p.isEmpty then build_paragraph_chunks size overlap fuel rest cur
    else if size < p.length then
      (chunk_by_sentence size overlap p fuel).bind (fun pc =>
        (build_paragraph_chunks size overlap fuel rest []).map (fun more =>
          (if cur.isEmpty then [] else [cur]) ++ pc ++ more))
    else if size < cur.length + p.length + 2 then
      (build_paragraph_chunks size overlap fuel rest p).map (fun more => cur :: more)
    else
      build_paragraph_chunks size overlap fuel rest
        (if cur.isEmpty then p else cur ++ '\n' :: '\n' :: p)

/-- `DocumentChunker._chunk_by_paragraph`. -/
def chunk_by_paragraph (size overlap : Nat) (text : List Char) (fuel : Nat) :
    Option (List (List Char)) :=
  build_paragraph_chunks size overlap fuel (split_paragraphs text) []

/-- `DocumentChunker.chunk_text`: empty or whitespace-only text yields no
chunks; otherwise dispatch on the strategy, `sentence` being the default. -/
def chunk_text (strategy : String) (size overlap : Nat) (text : List Char) (fuel : Nat) :
    Option (List (List Char)) :=
  if text.isEmpty || (pyStrip text).isEmpty then some []
  else if strategy = "character" then chunk_by_character size overlap text fuel
  else if strategy = "paragraph" then chunk_by_paragraph size overlap text fuel
  else chunk_by_sentence size overlap text fuel

/-- Concatenation of chunks with each later chunk's leading overlapping
span removed (the round-trip reading of the spec's reconstruction
property). -/
def reconstruct_overlap (overlap : Nat) : List (List Char) → List Char
  | [] => []
  | c :: rest => c ++ (rest.map (List.drop overlap)).flatten

/-! ## Embedding client (`vector_db/embeddings.py`) -/

/-- `TextEmbedder.get_embedding`: an empty or whitespace-only text returns
the empty vector `[]` without calling the API (`embed_one` models
`response.data[0].embedding` of a one-element call; floats as ℚ). -/
def get_embedding (embed_one : List Char → List ℚ) (text : List Char) : List ℚ :=
  if (pyStrip text).isEmpty then [] else embed_one text

/-- `TextEmbedder.get_embeddings`: returns `[]` on an empty input list,
filters out empty/whitespace-only texts (`valid_texts`), returns `[]` if
nothing is left, and otherwise issues one batch API call on the filtered
list (`api` models `[item.embedding for item in response.data]`). -/
def get_embeddings (api : List (List Char) → List α) (texts : List (List Char)) : List α :=
  if texts.isEmpty then []
  else
    let valid_texts := texts.filter (fun t => !(pyStrip t).isEmpty)
    if valid_texts.isEmpty then [] else api valid_texts

/-! ## Multi-namespace retrieval (`ai/rag.py`, `vector_db/embeddings.py`) -/

/-- A raw document as returned by the Chroma client's nearest-neighbor
query, before `query_similar` converts the distance to a score. -/
structure RawDoc where
  text : List Char
  metadata : List (List Char × List Char)
  id : List Char
  distance : ℚ

/-- A document as returned by `TextEmbedder.query_similar`, with
`score = 1 - distance`. -/
structure QueryDoc where
  text : List Char
  metadata : List (List Char × List Char)
  id : List Char
  score : ℚ

/-- `TextEmbedder.query_similar`: a truthy (non-empty) namespace becomes the
filter `{"namespace": namespace}`; each raw result's distance is converted
to `score = 1 - distance`.  `store` models `chroma_client.query`. -/
def query_similar (store : List Char → Nat → Option (List Char × List Char) → List RawDoc)
    (query_text : List Char) (n_results : Nat) (ns : Option (List Char)) :
    List QueryDoc :=
  let where_filter : Option (List Char × List Char) :=
    match ns with
    | some s => if s.isEmpty then none else some ("namespace".data, s)
    | none => none
  (store query_text n_results where_filter).map
    (fun d => { text := d.text, metadata := d.metadata, id := d.id, score := 1 - d.distance })

/-- The multi-namespace branch of `RAGSystem.query`: query each namespace
independently for 5 results, concatenate (`if docs:
all_relevant_docs.extend(docs)`), sort by score descending (Python's stable
`sorted(..., reverse=True)`), and keep the top 5. -/
def multi_namespace_query
    (store : List Char → Nat → Option (List Char × List Char) → List RawDoc)
    (query_text : List Char) (namespaces : List (List Char)) : List QueryDoc :=
  let all_relevant_docs :=
    (namespaces.map (fun ns => query_similar store query_text 5 (some ns))).flatten
  (insertionSortBy (fun a b => decide (b.score ≤ a.score)) all_relevant_docs).take 5

/-! ## Reranking (`rag/rag_engine.py`, `_rerank_results`) -/

/-- The word class of the regex `\w+` (ASCII reading): letters, digits and
the underscore. -/
def isWordChar (c : Char) : Bool := c.isAlphanum || c = '_'

/-- `re.findall` of maximal `\w+` runs; `cur` is the current run in
reverse. -/
def word_tokens_go : List Char → List Char → List (List Char)
  | [], cur => if cur.isEmpty then [] else [cur.reverse]
  | c :: rest, cur =>
    if isWordChar c then word_tokens_go rest (c :: cur)
    else if cur.isEmpty then word_tokens_go rest []
    else cur.reverse :: word_tokens_go rest []

/-- `re.findall(r'\w+', s.lower())`. -/
def word_tokens (s : List Char) : List (List Char) :=
  word_tokens_go (s.map Char.toLower) []

/-- `word_count` of `_rerank_results`: `sum(doc_words.count(word) for word
in query_words)` where `query_words = set(re.findall(r'\w+',
query.lower()))` and `doc_words = re.findall(r'\w+', document.lower())`. -/
def keyword_overlap_count (query document : List Char) : Nat :=
  ((word_tokens query).dedup).foldl (fun acc w => acc + (word_tokens document).count w) 0

/-- The heuristic combined score of `_rerank_results`:
`distance_score - word_count * 0.1` (lower is more relevant). -/
def combined_score (query : List Char) (r : SearchResult) : ℚ :=
  r.distance - (keyword_overlap_count query r.document : ℚ) * (1 / 10)

/-- `RAGEngine._rerank_results`: score every candidate, sort ascending by
the combined score (Python's stable `sorted`), keep the first `n_results`,
and project the candidates back out. -/
def rerank_results (query : String) (results : List SearchResult) (n_results : Nat) :
    List SearchResult :=
  let scored_results := results.map (fun r => (r, combined_score query.data r))
  let sorted_results := insertionSortBy (fun a b => decide (a.2 ≤ b.2)) scored_results
  (sorted_results.take n_results).map (fun p => p.1)

/-! ## Query expansion and the enhanced query (`rag/rag_engine.py`) -/

/-- The expansion prompt built by `_expand_query`. -/
def expand_prompt (query : List Char) : List Char :=
  "다음 검색 쿼리를 확장하세요: ".data ++ query ++ "\n\n확장된 쿼리:".data

/-- `RAGEngine._expand_query`: ask the generation client, strip the answer,
and discard it in favor of the original query when
`len(expanded) > len(query) * 3`.  `generate_text` models
`openai_service.generate_text`. -/
def expand_query (generate_text : List Char → List Char) (query : List Char) : List Char :=
  let expanded := pyStrip (generate_text (expand_prompt query))
  if query.length * 3 < expanded.length then query else expanded

/-- The fields of the dict returned by `RAGEngine.enhanced_rag_query` that
retrieval and expansion determine (the generated `response` text is an
external generation call and is omitted). -/
structure EnhancedResult where
  query : List Char
  expanded_query : Option (List Char)
  sources : List SearchResult

/-- `RAGEngine.enhanced_rag_query`, with the vector search injected as
`search` (the engine takes its `vector_db_service` as a constructor
parameter): optionally expand the query, retrieve `2 * top_k` candidates
when reranking is on (`top_k` otherwise) using the possibly-expanded query,
rerank when enabled and non-empty, and report `expanded_query` in the
result exactly when expansion was enabled.  Context compression only feeds
the omitted `response` field, never `sources`. -/
def enhanced_rag_query (generate_text : List Char → List Char)
    (search : List Char → Nat → List SearchResult)
    (query : String) (top_k : Nat) (query_expansion reranking : Bool) : EnhancedResult :=
  let expanded_query := if query_expansion then expand_query generate_text query.data else query.data
  let initial_n_results := if reranking then top_k * 2 else top_k
  let retrieved_docs := search expanded_query initial_n_results
  let reranked :=
    if reranking && !retrieved_docs.isEmpty then rerank_results query retrieved_docs top_k
    else retrieved_docs
  { query := query.data
    expanded_query := if query_expansion then some expanded_query else none
    sources := reranked }

/-! ## Context compression (`rag/rag_engine.py`, `_compress_context`) -/

/-- One iteration of the `_compress_context` loop: a document shorter than
500 characters is kept as is; otherwise the generation client extracts the
relevant span (`generate_text`, closing over the query and document), and
the result is discarded in favor of the original when
`len(compressed) < len(document) * 0.2` (scaled to exact integers as
`5 * len(compressed) < len(document)`). -/
def compress_one (generate_text : List Char → List Char → List Char) (query : List Char)
    (context : SearchResult) : SearchResult :=
  if context.document.length < 500 then context
  else
    let compressed := generate_text query context.document
    if compressed.length * 5 < context.document.length then context
    else
      { context with
        document := compressed
        compressed := true
        original_length := some context.document.length
        compressed_length := some compressed.length }

/-- `RAGEngine._compress_context`: the loop over the candidate list. -/
def compress_context (generate_text : List Char → List Char → List Char) (query : List Char)
    (contexts : List SearchResult) : List SearchResult :=
  contexts.map (compress_one generate_text query)

deriving instance DecidableEq for Except

/-! ## Theorems -/

/-- C1: for every non-empty, non-whitespace-only query and every metadata
filter argument (including none), `RAGEngine.retrieve` raises `TypeError`
instead of returning a candidate list, because it calls
`VectorDBService.search` with the keyword `where` while the parameter is
named `ㄴwhere`; no candidates are ever returned through this path. -/
theorem retrieve_raises_typeerror (query : String)
    (filter_metadata : Option (List (List Char × List Char)))
    (h : (pyStrip query.data).isEmpty = false) :
    retrieve query filter_metadata = Except.error PyError.typeError := by
  have hq : query.data.isEmpty = false := by
    cases hd : query.data with
    | nil => rw [hd] at h; exact absurd h (by decide)
    | cons a l => rfl
  unfold retrieve
  rw [hq, h]
  decide

/-- Witness for C1 at the query `"hello"` with no filter. -/
theorem retrieve_raises_typeerror_witness :
    (pyStrip "hello".data).isEmpty = false ∧
      retrieve "hello" none = Except.error PyError.typeError :=
  ⟨by decide, retrieve_raises_typeerror "hello" none (by decide)⟩

/-- C2 (evaluation at the failing input): with the non-empty query
`"hello"` and the filter `{"document_id": "X"}`, `RAGEngine.retrieve`
raises `TypeError` at the `search` call, so the metadata filter never
reaches the vector store's nearest-neighbor query at all. -/
theorem retrieve_filter_never_reaches_store :
    retrieve "hello" (some [("document_id".data, "X".data)]) =
      Except.error PyError.typeError := by
  decide

/-- One unfolding step of the stuck character-chunker loop at
`size = 1`, `overlap = 1`, text `"ab"`: the new start `end - overlap`
equals the old start `0`, and the guard `if start >= end` does not fire. -/
theorem chunk_char_go_stuck_step (m : Nat) :
    chunk_char_go 1 1 ['a', 'b'] (m + 1) 0 =
      (chunk_char_go 1 1 ['a', 'b'] m 0).map (fun rest => ['a'] :: rest) := rfl

/-- C3: the character strategy does not clamp its advance: at `size = 1`,
`overlap = 1` on the text `"ab"` the window start never moves, so the
`while` loop never terminates — for every fuel bound the loop is still
running (`none`), and no finite chunk list is ever produced. -/
theorem character_chunker_never_terminates :
    ∀ fuel, chunk_text "character" 1 1 "ab".data fuel = none := by
  have hgo : ∀ fuel, chunk_char_go 1 1 ['a', 'b'] fuel 0 = none := by
    intro fuel
    induction fuel with
    | zero => rfl
    | succ m ih => rw [chunk_char_go_stuck_step m, ih]; rfl
  intro fuel
  show chunk_char_go 1 1 ['a', 'b'] fuel 0 = none
  exact hgo fuel

/-- A window slice `text[start : min(start + size, len(text))]` never holds
more than `size` characters, for any (possibly negative) start. -/
theorem pySlice_window_length_le (t : List Char) (start : Int) (size : Nat) :
    (pySlice t start (min (start + (size : Int)) (t.length : Int))).length ≤ size := by
  unfold pySlice pyIndex
  simp only [List.length_drop, List.length_take]
  split_ifs <;> omega

/-- Every chunk emitted by the character-chunker loop has at most `size`
characters. -/
theorem chunk_char_go_length_le (size overlap : Nat) (t : List Char) :
    ∀ fuel (start : Int) l, chunk_char_go size overlap t fuel start = some l →
      ∀ c ∈ l, c.length ≤ size := by
  intro fuel
  induction fuel with
  | zero => intro start l h; exact absurd h (by simp [chunk_char_go])
  | succ m ih =>
    intro start l h
    simp only [chunk_char_go] at h
    split at h
    · rw [Option.map_eq_some'] at h
      obtain ⟨rest, hrest, rfl⟩ := h
      intro c hc
      rcases List.mem_cons.mp hc with heq | hmem
      · rw [heq]; exact pySlice_window_length_le t start size
      · exact ih _ rest hrest c hmem
    · intro c hc
      rw [Option.some_inj] at h
      rw [← h] at hc
      exact absurd hc (List.not_mem_nil c)

/-- Every chunk of `_chunk_by_character` has at most `size` characters. -/
theorem chunk_by_character_length_le (size overlap : Nat) (text : List Char) (fuel : Nat)
    (l : List (List Char)) (h : chunk_by_character size overlap text fuel = some l) :
    ∀ c ∈ l, c.length ≤ size := by
  exact chunk_char_go_length_le size overlap (pyStrip text) fuel 0 l h

/-- Every chunk of the sentence-packing loop has at most `size` characters,
provided the running chunk accumulator does. -/
theorem build_sentence_chunks_length_le (size overlap fuel : Nat) :
    ∀ (ss : List (List Char)) (cur : List Char) l, cur.length ≤ size →
      build_sentence_chunks size overlap fuel ss cur = some l →
      ∀ c ∈ l, c.length ≤ size := by
  intro ss
  induction ss with
  | nil =>
    intro cur l hcur h
    simp only [build_sentence_chunks, Option.some_inj] at h
    rw [← h]
    split
    · intro c hc; exact absurd hc (List.not_mem_nil c)
    · intro c hc
      rw [List.mem_singleton.mp hc]
      exact hcur
  | cons s rest ih =>
    intro cur l hcur h
    simp only [build_sentence_chunks] at h
    by_cases hbig : size < s.length
    · rw [if_pos hbig, Option.bind_eq_some] at h
      obtain ⟨sc, hsc, h2⟩ := h
      rw [Option.map_eq_some'] at h2
      obtain ⟨more, hmore, rfl⟩ := h2
      intro c hc
      rcases List.mem_append.mp hc with hc1 | hc2
      rcases List.mem_append.mp hc1 with hc0 | hcsc
      · revert hc0
        split
        · intro hc0; exact absurd hc0 (List.not_mem_nil c)
        · intro hc0; rw [List.mem_singleton.mp hc0]; exact hcur
      · exact chunk_by_character_length_le size overlap s fuel sc hsc c hcsc
      · exact ih [] more (Nat.zero_le size) hmore c hc2
    · rw [if_neg hbig] at h
      by_cases hover : size < cur.length + s.length + 1
      · rw [if_pos hover, Option.map_eq_some'] at h
        obtain ⟨more, hmore, rfl⟩ := h
        intro c hc
        rcases List.mem_cons.mp hc with heq | hmem
        · rw [heq]; exact hcur
        · exact ih s more (by omega) hmore c hmem
      · rw [if_neg hover] at h
        refine ih _ l ?_ h
        split
        · omega
        · simp only [List.length_append, List.length_cons]
          omega

/-- Every chunk of `_chunk_by_sentence` has at most `size` characters. -/
theorem chunk_by_sentence_length_le (size overlap : Nat) (text : List Char) (fuel : Nat)
    (l : List (List Char)) (h : chunk_by_sentence size overlap text fuel = some l) :
    ∀ c ∈ l, c.length ≤ size := by
  exact build_sentence_chunks_length_le size overlap fuel _ [] l (Nat.zero_le size) h

/-- Every chunk of the paragraph-packing loop has at most `size`
characters, provided the running chunk accumulator does. -/
theorem build_paragraph_chunks_length_le (size overlap fuel : Nat) :
    ∀ (ps : List (List Char)) (cur : List Char) l, cur.length ≤ size →
      build_paragraph_chunks size overlap fuel ps cur = some l →
      ∀ c ∈ l, c.length ≤ size := by
  intro ps
  induction ps with
  | nil =>
    intro cur l hcur h
    simp only [build_paragraph_chunks, Option.some_inj] at h
    rw [← h]
    split
    · intro c hc; exact absurd hc (List.not_mem_nil c)
    · intro c hc
      rw [List.mem_singleton.mp hc]
      exact hcur
  | cons p0 rest ih =>
    intro cur l hcur h
    simp only [build_paragraph_chunks] at h
    by_cases hblank : (pyStrip p0).isEmpty = true
    · rw [if_pos hblank] at h
      exact ih cur l hcur h
    · rw [if_neg hblank] at h
      by_cases hbig : size < (pyStrip p0).length
      · rw [if_pos hbig, Option.bind_eq_some] at h
        obtain ⟨pc, hpc, h2⟩ := h
        rw [Option.map_eq_some'] at h2
        obtain ⟨more, hmore, rfl⟩ := h2
        intro c hc
        rcases List.mem_append.mp hc with hc1 | hc2
        rcases List.mem_append.mp hc1 with hc0 | hcpc
        · revert hc0
          split
          · intro hc0; exact absurd hc0 (List.not_mem_nil c)
          · intro hc0; rw [List.mem_singleton.mp hc0]; exact hcur
        · exact chunk_by_sentence_length_le size overlap (pyStrip p0) fuel pc hpc c hcpc
        · exact ih [] more (Nat.zero_le size) hmore c hc2
      · rw [if_neg hbig] at h
        by_cases hover : size < cur.length + (pyStrip p0).length + 2
        · rw [if_pos hover, Option.map_eq_some'] at h
          obtain ⟨more, hmore, rfl⟩ := h
          intro c hc
          rcases List.mem_cons.mp hc with heq | hmem
          · rw [heq]; exact hcur
          · exact ih (pyStrip p0) more (by omega) hmore c hmem
        · rw [if_neg hover] at h
          refine ih _ l ?_ h
          split
          · omega
          · simp only [List.length_append, List.length_cons]
            omega

/-- C7: for every chunk size > 0, every chunk produced by any of the three
chunking strategies (`character`, `paragraph`, and the default `sentence`)
has at most `size` characters — which in particular establishes the claimed
disjunction `len(text) <= size` or flagged-as-forced-split, by its first
disjunct, on every terminating run. -/
theorem every_chunk_at_most_size (strategy : String) (size overlap : Nat)
    (text : List Char) (fuel : Nat) (chunks : List (List Char))
    (hsize : 1 ≤ size) (h : chunk_text strategy size overlap text fuel = some chunks) :
    ∀ c ∈ chunks, c.length ≤ size := by
  unfold chunk_text at h
  split at h
  · rw [Option.some_inj] at h
    rw [← h]
    intro c hc
    exact absurd hc (List.not_mem_nil c)
  · split at h
    · exact chunk_by_character_length_le size overlap text fuel chunks h
    · split at h
      · exact build_paragraph_chunks_length_le size overlap fuel _ [] chunks
          (Nat.zero_le size) h
      · exact build_sentence_chunks_length_le size overlap fuel _ [] chunks
          (Nat.zero_le size) h

/-- Witness for C7: the sentence strategy at `size = 4` on
`"Abcdefgh. Ab."` (an oversized single sentence force-split at the
character level, plus a short sentence). -/
theorem every_chunk_at_most_size_witness :
    1 ≤ 4 ∧
      chunk_text "sentence" 4 0 "Abcdefgh. Ab.".data 20 =
        some ["Abcd".data, "efgh".data, ".".data, "Ab.".data] ∧
      ∀ c ∈ ["Abcd".data, "efgh".data, ".".data, "Ab.".data], c.length ≤ 4 :=
  ⟨by decide, by decide,
    every_chunk_at_most_size "sentence" 4 0 "Abcdefgh. Ab.".data 20 _ (by decide) (by decide)⟩

/-- With `overlap = 0` the character-chunker loop, when it finishes, emits
exactly the consecutive slices of the text from `start` on: flattening the
chunks gives `t[start:]`. -/
theorem chunk_char_go_zero_overlap_flatten (size : Nat) (t : List Char) :
    ∀ fuel (start : Int) l, 0 ≤ start →
      chunk_char_go size 0 t fuel start = some l →
      l.flatten = t.drop start.toNat := by
  intro fuel
  induction fuel with
  | zero => intro start l _ h; exact absurd h (by simp [chunk_char_go])
  | succ m ih =>
    intro start l h0 h
    simp only [chunk_char_go, Nat.cast_zero, sub_zero, ite_self] at h
    split at h
    · rw [Option.map_eq_some'] at h
      obtain ⟨rest, hrest, rfl⟩ := h
      rename_i hlt
      have h0e : (0 : Int) ≤ min (start + (size : Int)) (t.length : Int) := by omega
      have hrec := ih (min (start + (size : Int)) (t.length : Int)) rest h0e hrest
      rw [List.flatten_cons, hrec]
      unfold pySlice pyIndex
      have hsnn : ¬ start < 0 := by omega
      have henn : ¬ min (start + (size : Int)) (t.length : Int) < 0 := by omega
      rw [if_neg henn, if_neg hsnn]
      have hBl : min (min (start + (size : Int)) (t.length : Int)).toNat t.length =
          (min (start + (size : Int)) (t.length : Int)).toNat := by omega
      have hAl : min start.toNat t.length = start.toNat := by omega
      rw [hBl, hAl]
      have hAB : start.toNat ≤ (min (start + (size : Int)) (t.length : Int)).toNat := by omega
      rw [List.drop_take]
      have hdta := List.drop_take_append_drop t start.toNat
        ((min (start + (size : Int)) (t.length : Int)).toNat - start.toNat)
      rw [show start.toNat + ((min (start + (size : Int)) (t.length : Int)).toNat - start.toNat) =
          (min (start + (size : Int)) (t.length : Int)).toNat by omega] at hdta
      exact hdta
    · rw [Option.some_inj] at h
      rw [← h]
      rename_i hge
      rw [List.flatten_nil, eq_comm, List.drop_eq_nil_iff]
      omega

/-- Removing a zero-length overlapping span is plain concatenation. -/
theorem reconstruct_overlap_zero (l : List (List Char)) :
    reconstruct_overlap 0 l = l.flatten := by
  cases l with
  | nil => rfl
  | cons c rest =>
    have hmap : List.map (List.drop 0) rest = rest := by
      induction rest with
      | nil => rfl
      | cons x xs ihx => simp only [List.map_cons, List.drop_zero, ihx]
    simp [reconstruct_overlap, hmap, List.flatten_cons]

/-- C6 (counterexample): for the character strategy at `size = 1`,
`overlap = 0` on the non-empty input `" a"`, the produced chunks
reconstruct `"a"`, not the original text `" a"` — `chunk_text` strips its
input first, so the round-trip property fails on any input with leading or
trailing whitespace. -/
theorem chunk_roundtrip_counterexample :
    chunk_text "character" 1 0 " a".data 5 = some ["a".data] ∧
      reconstruct_overlap 0 ["a".data] ≠ " a".data :=
  ⟨by decide, by decide⟩

/-- C6 (amended): for the character strategy with `overlap = 0`, on every
terminating run, concatenating the chunks with each chunk's (empty)
overlapping span removed reconstructs exactly the stripped input text
`text.strip()`, character for character. -/
theorem character_chunks_reconstruct_stripped_text (size : Nat) (text : List Char)
    (fuel : Nat) (chunks : List (List Char))
    (h : chunk_text "character" size 0 text fuel = some chunks) :
    reconstruct_overlap 0 chunks = pyStrip text := by
  rw [reconstruct_overlap_zero]
  unfold chunk_text at h
  split at h
  · rw [Option.some_inj] at h
    rw [← h, List.flatten_nil]
    rename_i hemp
    rcases Bool.or_eq_true_iff.mp hemp with he | he
    · rw [List.isEmpty_iff.mp he]; rfl
    · rw [eq_comm, ← List.isEmpty_iff]; exact he
  · rw [if_pos rfl] at h
    have := chunk_char_go_zero_overlap_flatten size (pyStrip text) fuel 0 chunks
      (le_refl 0) h
    rw [this]
    rfl

/-- Witness for C6 (amended) at `size = 2` on `" abc "`. -/
theorem character_chunks_reconstruct_stripped_text_witness :
    chunk_text "character" 2 0 " abc ".data 10 = some [['a', 'b'], ['c']] ∧
      reconstruct_overlap 0 [['a', 'b'], ['c']] = pyStrip " abc ".data :=
  ⟨by decide,
    character_chunks_reconstruct_stripped_text 2 " abc ".data 10 _ (by decide)⟩

/-- C4 (counterexample): `get_embeddings` filters empty strings out of the
batch instead of mapping them to an empty vector, so on the input
`["", "a"]` the output has one vector while the input has two texts — the
output is shorter than, and positionally misaligned with, the input. -/
theorem get_embeddings_misaligned_counterexample :
    (get_embeddings (fun l => l.map (fun _ => ([0] : List ℚ))) [[], ['a']]).length ≠
      ([[], ['a']] : List (List Char)).length := by
  decide

/-- C4 (amended): batch embedding is order-preserving only over the
non-empty inputs: provided the batch API returns one vector per request in
order, `get_embeddings` returns exactly the vectors of the
empty/whitespace-filtered input list, in that order (so inputs containing
empty strings yield an output aligned with the filtered list, not with the
original); a failed batch call returns `[]` for the whole batch in the
source, never a partial result.  The per-text path `get_embedding` does map
an empty string to the empty vector without an API call. -/
theorem get_embeddings_maps_filtered_inputs (f : List Char → List ℚ)
    (api : List (List Char) → List (List ℚ)) (texts : List (List Char))
    (hapi : ∀ l, api l = l.map f) :
    get_embeddings api texts = (texts.filter (fun t => !(pyStrip t).isEmpty)).map f ∧
      ∀ t, (pyStrip t).isEmpty = true → get_embedding f t = [] := by
  constructor
  · unfold get_embeddings
    by_cases hemp : texts.isEmpty = true
    · rw [if_pos hemp, List.isEmpty_iff.mp hemp]
      rfl
    · rw [if_neg hemp]
      show (if (texts.filter (fun t => !(pyStrip t).isEmpty)).isEmpty = true then []
          else api (texts.filter (fun t => !(pyStrip t).isEmpty))) =
        (texts.filter (fun t => !(pyStrip t).isEmpty)).map f
      by_cases hvalid : (texts.filter (fun t => !(pyStrip t).isEmpty)).isEmpty = true
      · rw [if_pos hvalid, List.isEmpty_iff.mp hvalid]
        rfl
      · rw [if_neg hvalid]
        exact hapi _
  · intro t ht
    unfold get_embedding
    rw [if_pos ht]

/-- Witness for C4 (amended) on `["a", "", "bc"]` with a length-valued
embedding function. -/
theorem get_embeddings_maps_filtered_inputs_witness :
    get_embeddings (fun l => l.map (fun t => [(t.length : ℚ)])) [['a'], [], ['b', 'c']] =
        (([['a'], [], ['b', 'c']] : List (List Char)).filter
          (fun t => !(pyStrip t).isEmpty)).map (fun t => [(t.length : ℚ)]) ∧
      ∀ t, (pyStrip t).isEmpty = true → get_embedding (fun t => [(t.length : ℚ)]) t = [] :=
  get_embeddings_maps_filtered_inputs (fun t => [(t.length : ℚ)])
    (fun l => l.map (fun t => [(t.length : ℚ)])) [['a'], [], ['b', 'c']] (fun _ => rfl)

/-- C8: `_rerank_results` assigns each candidate the combined score
`distance - 0.1 * keyword_overlap_count`, sorts ascending by it and
truncates to `n_results`; consequently the output is ascending in the
combined score, has at most `n_results` entries, and its top-1 has minimal
combined score over all first-stage candidates. -/
theorem rerank_top1_minimal (query : String) (results : List SearchResult) (n_results : Nat)
    (hne : results ≠ []) (hn : 1 ≤ n_results) :
    (rerank_results query results n_results).length ≤ n_results ∧
    List.Pairwise (fun a b => combined_score query.data a ≤ combined_score query.data b)
      (rerank_results query results n_results) ∧
    ∃ r0, (rerank_results query results n_results).head? = some r0 ∧
      ∀ r ∈ results, combined_score query.data r0 ≤ combined_score query.data r := by
  have htrans : ∀ x y z : SearchResult × ℚ, decide (x.2 ≤ y.2) = true →
      decide (y.2 ≤ z.2) = true → decide (x.2 ≤ z.2) = true := by
    intro x y z hxy hyz
    simp only [decide_eq_true_eq] at hxy hyz ⊢
    exact le_trans hxy hyz
  have htotal : ∀ x y : SearchResult × ℚ, decide (x.2 ≤ y.2) = true ∨
      decide (y.2 ≤ x.2) = true := by
    intro x y
    simp only [decide_eq_true_eq]
    exact le_total x.2 y.2
  have hperm := perm_insertionSortBy (fun a b : SearchResult × ℚ => decide (a.2 ≤ b.2))
    (results.map (fun r => (r, combined_score query.data r)))
  have hsortedPW := pairwise_insertionSortBy
    (fun a b : SearchResult × ℚ => decide (a.2 ≤ b.2)) htrans htotal
    (results.map (fun r => (r, combined_score query.data r)))
  have hinv : ∀ p ∈ insertionSortBy (fun a b : SearchResult × ℚ => decide (a.2 ≤ b.2))
      (results.map (fun r => (r, combined_score query.data r))),
      p.2 = combined_score query.data p.1 := by
    intro p hp
    obtain ⟨r, _, rfl⟩ := List.mem_map.mp (hperm.mem_iff.mp hp)
    rfl
  have hrr : rerank_results query results n_results =
      ((insertionSortBy (fun a b : SearchResult × ℚ => decide (a.2 ≤ b.2))
        (results.map (fun r => (r, combined_score query.data r)))).take n_results).map
        (fun p => p.1) := rfl
  refine ⟨?_, ?_, ?_⟩
  · rw [hrr, List.length_map]
    exact List.length_take_le _ _
  · rw [hrr, List.pairwise_map]
    have hPWtake := List.Pairwise.sublist (List.take_sublist n_results _) hsortedPW
    refine hPWtake.imp_of_mem ?_
    intro a b ha hb hab
    have ha2 := hinv a (List.take_subset _ _ ha)
    have hb2 := hinv b (List.take_subset _ _ hb)
    simp only [decide_eq_true_eq] at hab
    rw [ha2, hb2] at hab
    exact hab
  · have hsne : insertionSortBy (fun a b : SearchResult × ℚ => decide (a.2 ≤ b.2))
        (results.map (fun r => (r, combined_score query.data r))) ≠ [] := by
      intro hnil
      have hlen := hperm.length_eq
      rw [hnil, List.length_map] at hlen
      exact hne (List.length_eq_zero.mp hlen.symm)
    obtain ⟨y, ys, hys⟩ := List.exists_cons_of_ne_nil hsne
    obtain ⟨m, rfl⟩ : ∃ m, n_results = m + 1 := ⟨n_results - 1, by omega⟩
    have hy2 : y.2 = combined_score query.data y.1 := by
      refine hinv y ?_
      rw [hys]
      exact List.mem_cons_self y ys
    refine ⟨y.1, ?_, ?_⟩
    · rw [hrr, hys, List.take_succ_cons, List.map_cons]
      rfl
    · intro r hr
      have hmem2 : (r, combined_score query.data r) ∈
          insertionSortBy (fun a b : SearchResult × ℚ => decide (a.2 ≤ b.2))
            (results.map (fun r => (r, combined_score query.data r))) :=
        hperm.mem_iff.mpr (List.mem_map.mpr ⟨r, hr, rfl⟩)
      rw [hys] at hmem2
      rcases List.mem_cons.mp hmem2 with heq | hmemys
      · rw [← heq]
      · rw [hys] at hsortedPW
        have hle := (List.pairwise_cons.mp hsortedPW).1 _ hmemys
        simp only [decide_eq_true_eq] at hle
        rw [hy2] at hle
        exact hle

/-- The two-candidate list used by the C8 witness: keyword overlap makes
the vector-farther candidate win the combined metric. -/
def rerank_witness_candidates : List SearchResult :=
  [{ document := "no apples here at all".data, id := "1".data, metadata := [],
      distance := 0 },
    { document := "apple apple apple".data, id := "2".data, metadata := [],
      distance := (1 : ℚ) / 5 }]

/-- Witness for C8 on `rerank_witness_candidates` with `n_results = 1`. -/
theorem rerank_top1_minimal_witness :
    rerank_witness_candidates ≠ [] ∧ 1 ≤ 1 ∧
      ((rerank_results "apple" rerank_witness_candidates 1).length ≤ 1 ∧
        List.Pairwise
          (fun a b => combined_score "apple".data a ≤ combined_score "apple".data b)
          (rerank_results "apple" rerank_witness_candidates 1) ∧
        ∃ r0, (rerank_results "apple" rerank_witness_candidates 1).head? = some r0 ∧
          ∀ r ∈ rerank_witness_candidates,
            combined_score "apple".data r0 ≤ combined_score "apple".data r) :=
  ⟨List.cons_ne_nil _ _, le_refl 1,
    rerank_top1_minimal "apple" rerank_witness_candidates 1 (List.cons_ne_nil _ _) (le_refl 1)⟩

/-- A contract-honoring store for the C5 counterexample: an unfiltered
query returns a document living in namespace `"x"`; filtered queries
return nothing. -/
def mns_counterexample_store : List Char → Nat → Option (List Char × List Char) → List RawDoc :=
  fun _ _ filt =>
    match filt with
    | none =>
        [{ text := "t".data, metadata := [("namespace".data, "x".data)],
           id := "i".data, distance := 0 }]
    | some _ => []

/-- C5 (counterexample): `query_similar` only applies the namespace filter
when the namespace is truthy (`if namespace:`), so requesting the
namespace list `[""]` queries the store unfiltered, and the merged result
can contain a document that belongs to none of the requested namespaces —
even though the store honors every filter it is given. -/
theorem multi_namespace_empty_namespace_counterexample :
    (∀ q n v d, d ∈ mns_counterexample_store q n (some ("namespace".data, v)) →
        d.metadata.lookup "namespace".data = some v) ∧
      ¬ (∀ d ∈ multi_namespace_query mns_counterexample_store "q".data [[]],
          ∃ ns ∈ [([] : List Char)], d.metadata.lookup "namespace".data = some ns) := by
  constructor
  · intro q n v d hd
    simp [mns_counterexample_store] at hd
  · intro h
    have hd := h { text := "t".data, metadata := [("namespace".data, "x".data)],
                   id := "i".data, score := 1 - 0 }
      (by
        rw [show multi_namespace_query mns_counterexample_store "q".data [[]] =
          [{ text := "t".data, metadata := [("namespace".data, "x".data)],
             id := "i".data, score := 1 - 0 }] from rfl]
        exact List.mem_singleton_self _)
    obtain ⟨ns, hns, heq⟩ := hd
    rw [List.mem_singleton.mp hns] at heq
    simp [List.lookup] at heq

/-- C5 (amended): provided every requested namespace is a non-empty string
and the store honors metadata filters, the multi-namespace branch of
`RAGSystem.query` returns at most 5 candidates, in descending order of the
converted similarity score `1 - distance`, each belonging to one of the
requested namespaces. -/
theorem multi_namespace_merge_properties
    (store : List Char → Nat → Option (List Char × List Char) → List RawDoc)
    (query_text : List Char) (namespaces : List (List Char))
    (hns : ∀ ns ∈ namespaces, ns ≠ ([] : List Char))
    (hstore : ∀ q n v d, d ∈ store q n (some ("namespace".data, v)) →
        d.metadata.lookup "namespace".data = some v) :
    (multi_namespace_query store query_text namespaces).length ≤ 5 ∧
    List.Pairwise (fun a b => b.score ≤ a.score)
      (multi_namespace_query store query_text namespaces) ∧
    ∀ d ∈ multi_namespace_query store query_text namespaces,
      ∃ ns ∈ namespaces, d.metadata.lookup "namespace".data = some ns := by
  have htrans : ∀ x y z : QueryDoc, decide (y.score ≤ x.score) = true →
      decide (z.score ≤ y.score) = true → decide (z.score ≤ x.score) = true := by
    intro x y z hxy hyz
    simp only [decide_eq_true_eq] at hxy hyz ⊢
    exact le_trans hyz hxy
  have htotal : ∀ x y : QueryDoc, decide (y.score ≤ x.score) = true ∨
      decide (x.score ≤ y.score) = true := by
    intro x y
    simp only [decide_eq_true_eq]
    exact le_total y.score x.score
  have hmnq : multi_namespace_query store query_text namespaces =
      (insertionSortBy (fun a b : QueryDoc => decide (b.score ≤ a.score))
        ((namespaces.map (fun ns => query_similar store query_text 5 (some ns))).flatten)).take
        5 := rfl
  refine ⟨?_, ?_, ?_⟩
  · rw [hmnq]
    exact List.length_take_le _ _
  · rw [hmnq]
    have hPW := pairwise_insertionSortBy
      (fun a b : QueryDoc => decide (b.score ≤ a.score)) htrans htotal
      ((namespaces.map (fun ns => query_similar store query_text 5 (some ns))).flatten)
    have hPWtake := List.Pairwise.sublist (List.take_sublist 5 _) hPW
    exact hPWtake.imp (fun h => decide_eq_true_eq.mp h)
  · intro d hd
    rw [hmnq] at hd
    have hd3 := (perm_insertionSortBy
      (fun a b : QueryDoc => decide (b.score ≤ a.score)) _).mem_iff.mp
      (List.take_subset _ _ hd)
    obtain ⟨l, hl, hdl⟩ := List.mem_flatten.mp hd3
    obtain ⟨ns, hns2, rfl⟩ := List.mem_map.mp hl
    refine ⟨ns, hns2, ?_⟩
    have hnse : ns.isEmpty = false := by
      cases hval : ns.isEmpty
      · rfl
      · exact absurd (List.isEmpty_iff.mp hval) (hns ns hns2)
    unfold query_similar at hdl
    simp only [hnse, Bool.false_eq_true, if_false] at hdl
    obtain ⟨raw, hraw, rfl⟩ := List.mem_map.mp hdl
    exact hstore query_text 5 ns raw hraw

/-- A contract-honoring store for the C5 witness: a filtered query returns
one document carrying exactly the requested filter pair. -/
def mns_witness_store : List Char → Nat → Option (List Char × List Char) → List RawDoc :=
  fun _ _ filt =>
    match filt with
    | some kv =>
        [{ text := "t".data, metadata := [kv], id := "i".data, distance := 0 }]
    | none => []

/-- Witness for C5 (amended) on the namespace list `["a"]`. -/
theorem multi_namespace_merge_properties_witness :
    (∀ ns ∈ [("a".data : List Char)], ns ≠ ([] : List Char)) ∧
    (∀ q n v d, d ∈ mns_witness_store q n (some ("namespace".data, v)) →
        d.metadata.lookup "namespace".data = some v) ∧
    ((multi_namespace_query mns_witness_store "q".data ["a".data]).length ≤ 5 ∧
      List.Pairwise (fun a b => b.score ≤ a.score)
        (multi_namespace_query mns_witness_store "q".data ["a".data]) ∧
      ∀ d ∈ multi_namespace_query mns_witness_store "q".data ["a".data],
        ∃ ns ∈ [("a".data : List Char)], d.metadata.lookup "namespace".data = some ns) := by
  have hcontract : ∀ q n v d, d ∈ mns_witness_store q n (some ("namespace".data, v)) →
      d.metadata.lookup "namespace".data = some v := by
    intro q n v d hd
    simp only [mns_witness_store] at hd
    rw [List.mem_singleton.mp hd]
    simp [List.lookup]
  refine ⟨by decide, hcontract, ?_⟩
  exact multi_namespace_merge_properties mns_witness_store "q".data ["a".data]
    (by decide) hcontract

/-- C9 (counterexample): when the expansion exceeds 3× the original query
length, `enhanced_rag_query` sets the `expanded_query` audit field of the
result to the original query (because `query_expansion` is enabled and
`_expand_query` returned the original), not to null/absent. -/
theorem expansion_audit_field_not_null_counterexample :
    (enhanced_rag_query (fun _ => List.replicate 40 'x') (fun _ _ => [])
        "abc" 5 true true).expanded_query = some "abc".data ∧
      some "abc".data ≠ (none : Option (List Char)) :=
  ⟨by decide, by decide⟩

/-- C9 (amended): when the (stripped) expansion returned by the generation
client is more than 3× the length of the original query, the expansion is
discarded — the enhanced retrieval searches with the original query — and
the `expanded_query` audit field of the result equals the original query
(it is not null/absent, since `query_expansion` is enabled). -/
theorem expansion_guardrail_uses_original (generate_text : List Char → List Char)
    (search : List Char → Nat → List SearchResult) (query : String)
    (top_k : Nat) (reranking : Bool)
    (h : query.data.length * 3 < (pyStrip (generate_text (expand_prompt query.data))).length) :
    expand_query generate_text query.data = query.data ∧
    (enhanced_rag_query generate_text search query top_k true reranking).expanded_query =
      some query.data ∧
    (enhanced_rag_query generate_text search query top_k true reranking).sources =
      (if reranking && !(search query.data (if reranking then top_k * 2 else top_k)).isEmpty
        then rerank_results query (search query.data (if reranking then top_k * 2 else top_k))
          top_k
        else search query.data (if reranking then top_k * 2 else top_k)) := by
  have hexp : expand_query generate_text query.data = query.data := by
    unfold expand_query
    rw [if_pos h]
  refine ⟨hexp, ?_, ?_⟩
  · show (if true = true then some (expand_query generate_text query.data) else none) =
      some query.data
    rw [if_pos rfl, hexp]
  · show (if reranking && !(search (expand_query generate_text query.data)
        (if reranking then top_k * 2 else top_k)).isEmpty
      then rerank_results query (search (expand_query generate_text query.data)
        (if reranking then top_k * 2 else top_k)) top_k
      else search (expand_query generate_text query.data)
        (if reranking then top_k * 2 else top_k)) = _
    rw [hexp]

/-- Witness for C9 (amended): a 40-character expansion of the 3-character
query `"abc"`. -/
theorem expansion_guardrail_uses_original_witness :
    "abc".data.length * 3 <
        (pyStrip ((fun _ => List.replicate 40 'x') (expand_prompt "abc".data))).length ∧
      expand_query (fun _ => List.replicate 40 'x') "abc".data = "abc".data ∧
      (enhanced_rag_query (fun _ => List.replicate 40 'x') (fun _ _ => [])
          "abc" 5 true false).expanded_query = some "abc".data :=
  ⟨by decide,
    (expansion_guardrail_uses_original (fun _ => List.replicate 40 'x') (fun _ _ => [])
      "abc" 5 false (by decide)).1,
    (expansion_guardrail_uses_original (fun _ => List.replicate 40 'x') (fun _ _ => [])
      "abc" 5 false (by decide)).2.1⟩

set_option maxRecDepth 8000 in
/-- C10 (counterexample): a candidate of exactly 500 characters does not
exceed the 500-character threshold, yet `_compress_context` compresses it
(the source keeps a candidate unmodified only when `len(document) < 500`):
with a generation client returning 100 characters (exactly 20% of the
original, so the guardrail does not fire either), the returned text differs
from the original. -/
theorem compression_threshold_counterexample :
    (List.replicate 500 'a').length ≤ 500 ∧
      (compress_one (fun _ _ => List.replicate 100 'b') []
          { document := List.replicate 500 'a', id := [], metadata := [],
            distance := 0 }).document ≠ List.replicate 500 'a' := by
  constructor
  · decide
  · decide

/-- C10 (amended): `_compress_context` keeps a candidate unmodified when
its text is strictly shorter than 500 characters, and also keeps it
unmodified whenever the compressed text is shorter than 20% of the
original length (`len(compressed) < len(document) * 0.2`, i.e.
`5 * len(compressed) < len(document)`); the pass maps this rule over the
candidate list. -/
theorem compression_guardrails (generate_text : List Char → List Char → List Char)
    (query : List Char) (context : SearchResult) :
    (context.document.length < 500 → compress_one generate_text query context = context) ∧
    ((generate_text query context.document).length * 5 < context.document.length →
        compress_one generate_text query context = context) ∧
    ∀ contexts, compress_context generate_text query contexts =
      contexts.map (compress_one generate_text query) := by
  refine ⟨?_, ?_, fun _ => rfl⟩
  · intro h
    unfold compress_one
    rw [if_pos h]
  · intro h
    unfold compress_one
    by_cases h5 : context.document.length < 500
    · rw [if_pos h5]
    · rw [if_neg h5]
      show (if (generate_text query context.document).length * 5 <
          context.document.length then context else _) = context
      rw [if_pos h]

/-- Witness for C10 (amended): a 5-character candidate is returned
unmodified. -/
theorem compression_guardrails_witness :
    ("short".data : List Char).length < 500 ∧
      compress_one (fun _ _ => []) []
          { document := "short".data, id := [], metadata := [], distance := 0 } =
        { document := "short".data, id := [], metadata := [], distance := 0 } :=
  ⟨by decide,
    (compression_guardrails (fun _ _ => []) []
      { document := "short".data, id := [], metadata := [], distance := 0 }).1 (by decide)⟩
